import Mathlib

/-!
Shallow embedding of the flow-scanner application (`src/home.py`).

The program is a three-page options-flow dashboard.  The parts the claims
concern are embedded here as executable Lean definitions:

* the option-symbol codec: `parse_details` (decoder, `home.py` lines 32-49)
  and the symbol builder from the Contract Inspector (lines 110-113);
* the deep-scan pipeline `run_deep_scan` (lines 168-222): activity filter,
  per-trade threshold check and record construction, value-descending sort;
* the live WebSocket handler `handle_msg` (lines 229-252): substring
  watchlist match, threshold check, sweep/live tagging;
* the bounded buffer `st.session_state["scanner_data"]`, a
  `deque(maxlen=2000)` mutated by `appendleft` (live path) and by
  clear-then-append (scan rebuild).

Prices and dollar thresholds are modelled as exact rationals, sizes and
volumes as naturals, timestamps as naturals (nanoseconds since epoch).
Strike prices are carried in thousandths of a dollar, the fixed-point unit
the OCC symbol encoding itself uses.
-/

/-- ASCII character class `[A-Z]` of the symbol regex. -/
def isUpperChar (c : Char) : Bool := 65 ≤ c.toNat && c.toNat ≤ 90

/-- ASCII character class `\d` of the symbol regex (provider symbols are ASCII). -/
def isDigitChar (c : Char) : Bool := 48 ≤ c.toNat && c.toNat ≤ 57

/-- Numeric value of an ASCII digit character. -/
def digitToNat (c : Char) : Nat := c.toNat - 48

/-- The ASCII digit character for `n % 10` (one digit of a `%0kd` rendering). -/
def digitChar (n : Nat) : Char :=
  match n % 10 with
  | 0 => '0' | 1 => '1' | 2 => '2' | 3 => '3' | 4 => '4'
  | 5 => '5' | 6 => '6' | 7 => '7' | 8 => '8' | _ => '9'

/-- Two-digit zero-padded decimal rendering (`%02d`, for arguments below 100). -/
def pad2 (n : Nat) : List Char := [digitChar (n / 10 % 10), digitChar (n % 10)]

/-- Four-digit zero-padded decimal rendering (`%04d`, for arguments below 10000). -/
def pad4 (n : Nat) : List Char :=
  [digitChar (n / 1000 % 10), digitChar (n / 100 % 10), digitChar (n / 10 % 10),
   digitChar (n % 10)]

/-- Eight-digit zero-padded decimal rendering (`%08d`, for arguments below 10^8),
as in `f"{int(sel_strike*1000):08d}"`. -/
def pad8 (n : Nat) : List Char :=
  [digitChar (n / 10000000 % 10), digitChar (n / 1000000 % 10), digitChar (n / 100000 % 10),
   digitChar (n / 10000 % 10), digitChar (n / 1000 % 10), digitChar (n / 100 % 10),
   digitChar (n / 10 % 10), digitChar (n % 10)]

/-- Value of a big-endian list of ASCII digit characters. -/
def digitsVal (l : List Char) : Nat := l.foldl (fun a c => 10 * a + digitToNat c) 0

/-- Greedy `[A-Z]+`-style split: longest uppercase prefix and the remainder. -/
def spanUpper : List Char → List Char × List Char
  | [] => ([], [])
  | c :: cs =>
    if isUpperChar c then
      let p := spanUpper cs
      (c :: p.1, p.2)
    else ([], c :: cs)

/-- `\d{n}`-style split: exactly `n` digit characters and the remainder, or `none`. -/
def readDigits : Nat → List Char → Option (List Char × List Char)
  | 0, cs => some ([], cs)
  | _ + 1, [] => none
  | n + 1, c :: cs =>
    if isDigitChar c then (readDigits n cs).map (fun p => (c :: p.1, p.2)) else none

/-- The expiry string built by `parse_details` from the six date characters:
the literal `20`, then digits 1-2, a dash, digits 3-4, a dash, digits 5-6. -/
def expiryOf (d6 : List Char) : String :=
  ⟨'2' :: '0' :: (d6.take 2 ++ '-' :: ((d6.drop 2).take 2 ++ '-' :: (d6.drop 4).take 2))⟩

/-- The core of `parse_details`: `re.match(r"O:([A-Z]+)(\d{6})([CP])(\d{8})", symbol)`
followed by the group post-processing.  `re.match` anchors only at the start, so
trailing characters after the eighth strike digit are ignored.  Returns `none`
exactly when the regex does not match. -/
def parseCore (cs : List Char) : Option (String × String × ℚ × String) :=
  match cs with
  | c0 :: c1 :: rest =>
    if c0 = 'O' ∧ c1 = ':' then
      match spanUpper rest with
      | ([], _) => none
      | (tk, r1) =>
        match readDigits 6 r1 with
        | none => none
        | some (d6, r2) =>
          match r2 with
          | [] => none
          | tc :: r3 =>
            if tc = 'C' ∨ tc = 'P' then
              match readDigits 8 r3 with
              | none => none
              | some (d8, _) =>
                some (⟨tk⟩, expiryOf d6, (digitsVal d8 : ℚ) / 1000,
                      if tc = 'C' then "Call" else "Put")
            else none
    else none
  | _ => none

/-- `parse_details` (`home.py` lines 32-49): on a regex match returns
`(ticker, expiry, strike, side)`; otherwise the fallback `(symbol, "-", 0.0, "-")`. -/
def parse_details (symbol : String) : String × String × ℚ × String :=
  match parseCore symbol.data with
  | some r => r
  | none => (symbol, "-", 0, "-")

/-- Option side selected in the Contract Inspector UI. -/
inductive Side where
  | call : Side
  | put : Side
deriving DecidableEq, Repr

/-- The single-character side code: `t = "C" if side == "Call" else "P"`. -/
def sideChar : Side → Char
  | .call => 'C'
  | .put => 'P'

/-- The side name `parse_details` returns: `"Call" if type_char == 'C' else "Put"`. -/
def sideName : Side → String
  | .call => "Call"
  | .put => "Put"

/-- The OCC symbol built by the Contract Inspector (`home.py` lines 110-113):
the literal `O:`, the target ticker, the expiry as `strftime` with format
`%y%m%d`, the side character, and the strike as an 8-digit zero-padded
integer.  The strike is given in thousandths of a dollar, the value of
`int(sel_strike*1000)`. -/
def encodeSymbol (target : String) (year month day : Nat) (side : Side)
    (strikeThousandths : Nat) : String :=
  ⟨'O' :: ':' ::
    (target.data ++ (pad2 (year % 100) ++ pad2 month ++ pad2 day) ++
      sideChar side :: pad8 strikeThousandths)⟩

/-- Canonical ISO rendering `YYYY-MM-DD` of a calendar date, used to state
that the decoded expiry string reproduces the encoded date. -/
def isoDate (year month day : Nat) : String :=
  ⟨pad4 year ++ '-' :: (pad2 month ++ '-' :: pad2 day)⟩

/-- One row of the scanner table, the dict appended to `new_data` /
`scanner_data` (`home.py` lines 202-211 and 242-251).  The formatted display
strings for strike and time are carried as their underlying values. -/
structure Row where
  stock : String
  strike : ℚ
  expiry : String
  side : String
  size : Nat
  value : ℚ
  time : Nat
  tag : String
deriving DecidableEq, Repr

/-- One individual trade print returned by `client.list_trades`. -/
structure TradeRec where
  price : ℚ
  size : Nat
  participant_timestamp : Nat
deriving DecidableEq, Repr

/-- The `day` summary of one contract in the chain snapshot (`c.day`): daily
volume (may be null) and the closing price. -/
structure DayData where
  volume : Option Nat
  close : ℚ
deriving DecidableEq, Repr

/-- One contract of `client.list_snapshot_options_chain`: its OCC ticker
(`c.details.ticker`) and its possibly-absent day summary. -/
structure ChainContract where
  ticker : String
  day : Option DayData
deriving DecidableEq, Repr

/-- The REST gateway as the deep scan uses it.  Each call either returns data
or raises (modelled as `Except Unit`); the surrounding `try`/`except` blocks
decide how far a raise propagates. -/
structure Gateway where
  chain : String → Except Unit (List ChainContract)
  trades : String → Except Unit (List TradeRec)

/-- The activity filter of the deep scan (`home.py` lines 183-186):
`if not c.day or not c.day.volume: continue` and
`if (c.day.volume * c.day.close * 100) < threshold: continue`.
A contract passes exactly when neither `continue` fires. -/
def activePass (threshold : ℚ) (c : ChainContract) : Bool :=
  match c.day with
  | none => false
  | some d =>
    match d.volume with
    | none => false
    | some v =>
      if v = 0 then false
      else !(decide ((v : ℚ) * d.close * 100 < threshold))

/-- Per-print record construction of the deep scan (`home.py` lines 194-211):
computes `trade_val = tr.price * tr.size * 100`, keeps the print only when
`trade_val >= threshold`, and tags every kept record `"🧱 BLOCK"`. -/
def rowOfTrade (threshold : ℚ) (stock : String) (sym : String) (tr : TradeRec) : Option Row :=
  let p := parse_details sym
  let val := tr.price * (tr.size : ℚ) * 100
  if threshold ≤ val then
    some { stock := stock, strike := p.2.2.1, expiry := p.2.1, side := p.2.2.2,
           size := tr.size, value := val, time := tr.participant_timestamp,
           tag := "🧱 BLOCK" }
  else none

/-- Processing of one chain contract in the deep scan: the activity filter,
then the per-contract `try: trades = client.list_trades(...)` whose failure
skips just this contract (`except: continue`). -/
def contractRows (g : Gateway) (threshold : ℚ) (stock : String) (c : ChainContract) : List Row :=
  if activePass threshold c then
    match g.trades c.ticker with
    | .error _ => []
    | .ok trs => trs.filterMap (rowOfTrade threshold stock c.ticker)
  else []

/-- Processing of one watchlist ticker in the deep scan: the per-ticker `try`
block whose failure (`except Exception: continue`) skips this ticker. -/
def tickerRows (g : Gateway) (threshold : ℚ) (t : String) : List Row :=
  match g.chain t with
  | .error _ => []
  | .ok cs => cs.flatMap (contractRows g threshold t)

/-- Descending comparison on `Trade Value`, the key of
`new_data.sort(key=lambda x: x["Trade Value"], reverse=True)`. -/
def valDesc (a b : Row) : Prop := b.value ≤ a.value

instance : DecidableRel valDesc := fun a b => inferInstanceAs (Decidable (b.value ≤ a.value))

instance : IsTotal Row valDesc := ⟨fun a b => le_total b.value a.value⟩

instance : IsTrans Row valDesc := ⟨fun _ _ _ h1 h2 => le_trans h2 h1⟩

/-- The sort at the end of the deep scan (`home.py` line 218): stable sort by
`Trade Value` descending. -/
def scanSort (l : List Row) : List Row := List.insertionSort valDesc l

/-- `run_deep_scan` (`home.py` lines 168-222) restricted to its data flow:
collect rows over all watchlist tickers, then sort by value descending.
(The sorted list is then cleared-and-appended into the bounded buffer.) -/
def run_deep_scan (g : Gateway) (threshold : ℚ) (tickers : List String) : List Row :=
  scanSort (tickers.flatMap (tickerRows g threshold))

/-- `prefixOf pat l` holds when `pat` is an initial segment of `l`. -/
def prefixOf : List Char → List Char → Bool
  | [], _ => true
  | _ :: _, [] => false
  | a :: as, b :: bs => a = b && prefixOf as bs

/-- Substring test, the Python `t in m.symbol`. -/
def substrOf (pat : List Char) : List Char → Bool
  | [] => prefixOf pat []
  | c :: rest => prefixOf pat (c :: rest) || substrOf pat rest

/-- One WebSocket message as `handle_msg` reads it. -/
structure WsMessage where
  event_type : String
  symbol : String
  price : ℚ
  size : Nat
  conditions : List Nat
deriving DecidableEq, Repr

/-- `found = next((t for t in tickers if t in m.symbol), None)`:
the first watchlist ticker occurring as a substring of the option symbol. -/
def findTicker (tickers : List String) (sym : String) : Option String :=
  tickers.find? (fun t => substrOf t.data sym.data)

/-- Processing of one message in `handle_msg` (`home.py` lines 229-251):
only `"T"` events; admit when some watchlist ticker is a substring of the
symbol; keep when `val = price * size * 100 >= threshold`; tag `"🧹 SWEEP"`
when condition code 14 is present, else `"⚡ LIVE"`.  `now` is the wall-clock
instant `time.strftime` reads. -/
def handle_msg_one (tickers : List String) (threshold : ℚ) (now : Nat)
    (m : WsMessage) : Option Row :=
  if m.event_type = "T" then
    match findTicker tickers m.symbol with
    | none => none
    | some found =>
      let val := m.price * (m.size : ℚ) * 100
      if threshold ≤ val then
        let p := parse_details m.symbol
        some { stock := found, strike := p.2.2.1, expiry := p.2.1, side := p.2.2.2,
               size := m.size, value := val, time := now,
               tag := if 14 ∈ m.conditions then "🧹 SWEEP" else "⚡ LIVE" }
      else none
  else none

/-- Capacity of `st.session_state["scanner_data"] = deque(maxlen=2000)`. -/
def bufCap : Nat := 2000

/-- `appendleft` on the bounded deque: the new record becomes the most recent
(head); at capacity the oldest (last) element is dropped. -/
def pushFront (r : Row) (buf : List Row) : List Row := (r :: buf).take bufCap

/-- `append` on the bounded deque: the new record goes to the old end (tail);
at capacity the element at the head is dropped. -/
def pushBack (r : Row) (buf : List Row) : List Row :=
  if buf.length < bufCap then buf ++ [r] else buf.tail ++ [r]

/-- The scan rebuild (`home.py` lines 221-222): `scanner_data.clear()` then
`append` each row in order. -/
def rebuildBuffer (rows : List Row) : List Row :=
  rows.foldl (fun b r => pushBack r b) []

/-- The operations the program performs on the live buffer. -/
inductive BufOp where
  | live (r : Row) : BufOp
  | scan (rows : List Row) : BufOp

/-- Effect of one buffer operation. -/
def applyOp (buf : List Row) : BufOp → List Row
  | .live r => pushFront r buf
  | .scan rows => rebuildBuffer rows

/-- Effect of a sequence of buffer operations. -/
def applyOps (buf : List Row) (ops : List BufOp) : List Row := ops.foldl applyOp buf

/-- A two-ticker demo gateway: `"NVDA"` serves one active contract with one
large trade; every other ticker and contract symbol raises. -/
def demoGateway : Gateway where
  chain := fun t =>
    if t = "NVDA" then .ok [⟨"O:NVDA251205C00185000", some ⟨some 100, 10⟩⟩]
    else .error ()
  trades := fun s =>
    if s = "O:NVDA251205C00185000" then .ok [⟨10, 600, 7⟩]
    else .error ()

lemma digitToNat_digitChar (k : Nat) : digitToNat (digitChar k) = k % 10 := by
  unfold digitChar
  generalize hk : k % 10 = j
  have hj : j < 10 := hk ▸ Nat.mod_lt _ (by norm_num)
  interval_cases j <;> rfl

lemma isDigitChar_digitChar (k : Nat) : isDigitChar (digitChar k) = true := by
  unfold digitChar
  generalize hk : k % 10 = j
  have hj : j < 10 := hk ▸ Nat.mod_lt _ (by norm_num)
  interval_cases j <;> rfl

lemma isUpperChar_digitChar (k : Nat) : isUpperChar (digitChar k) = false := by
  unfold digitChar
  generalize hk : k % 10 = j
  have hj : j < 10 := hk ▸ Nat.mod_lt _ (by norm_num)
  interval_cases j <;> rfl

lemma spanUpper_append (l r : List Char) (hl : ∀ c ∈ l, isUpperChar c = true)
    (hr : ∀ c ∈ r.head?, isUpperChar c = false) :
    spanUpper (l ++ r) = (l, r) := by
  induction l with
  | nil =>
    cases r with
    | nil => rfl
    | cons c cs => simp [spanUpper, hr c rfl]
  | cons c cs ih =>
    have hc := hl c (List.mem_cons_self ..)
    simp [spanUpper, hc, ih (fun x hx => hl x (List.mem_cons_of_mem _ hx))]

lemma readDigits_append (l r : List Char) (h : ∀ c ∈ l, isDigitChar c = true) :
    readDigits l.length (l ++ r) = some (l, r) := by
  induction l with
  | nil => rfl
  | cons c cs ih =>
    have hc := h c (List.mem_cons_self ..)
    simp [readDigits, hc, ih (fun x hx => h x (List.mem_cons_of_mem _ hx))]

lemma digitsVal_pad8 (n : Nat) (h : n < 100000000) : digitsVal (pad8 n) = n := by
  simp [digitsVal, pad8, List.foldl, digitToNat_digitChar]
  omega

lemma isUpperChar_of_digit {c : Char} (h : isDigitChar c = true) : isUpperChar c = false := by
  simp only [isDigitChar, isUpperChar, Bool.and_eq_true, decide_eq_true_eq,
    Bool.and_eq_false_iff, decide_eq_false_iff_not, not_le] at *
  omega

lemma parseCore_full (tk d6 d8 rest : List Char) (tc : Char)
    (h1 : tk ≠ []) (h2 : ∀ c ∈ tk, isUpperChar c = true)
    (h3 : d6.length = 6) (h4 : ∀ c ∈ d6, isDigitChar c = true)
    (h5 : tc = 'C' ∨ tc = 'P')
    (h6 : d8.length = 8) (h7 : ∀ c ∈ d8, isDigitChar c = true) :
    parseCore ('O' :: ':' :: (tk ++ (d6 ++ ((tc :: d8) ++ rest))))
      = some (⟨tk⟩, expiryOf d6, (digitsVal d8 : ℚ) / 1000,
              if tc = 'C' then "Call" else "Put") := by
  obtain ⟨c, cs, rfl⟩ : ∃ c cs, tk = c :: cs := by
    cases tk with
    | nil => exact absurd rfl h1
    | cons c cs => exact ⟨c, cs, rfl⟩
  have hspan : spanUpper ((c :: cs) ++ (d6 ++ ((tc :: d8) ++ rest)))
      = (c :: cs, d6 ++ ((tc :: d8) ++ rest)) := by
    apply spanUpper_append _ _ h2
    intro x hx
    obtain ⟨e, es, rfl⟩ : ∃ e es, d6 = e :: es := by
      cases d6 with
      | nil => simp at h3
      | cons e es => exact ⟨e, es, rfl⟩
    have hxe : e = x := by simpa using hx
    subst hxe
    exact isUpperChar_of_digit (h4 e (List.mem_cons_self ..))
  have hread6 : readDigits 6 (d6 ++ ((tc :: d8) ++ rest)) = some (d6, (tc :: d8) ++ rest) := by
    rw [← h3]
    exact readDigits_append d6 _ h4
  have hread8 : readDigits 8 (d8 ++ rest) = some (d8, rest) := by
    rw [← h6]
    exact readDigits_append d8 _ h7
  dsimp only [parseCore]
  rw [if_pos ⟨rfl, rfl⟩, hspan]
  dsimp only
  rw [hread6]
  dsimp only [List.cons_append]
  rw [if_pos h5, hread8]

lemma parse_details_full (tk d6 d8 rest : List Char) (tc : Char)
    (h1 : tk ≠ []) (h2 : ∀ c ∈ tk, isUpperChar c = true)
    (h3 : d6.length = 6) (h4 : ∀ c ∈ d6, isDigitChar c = true)
    (h5 : tc = 'C' ∨ tc = 'P')
    (h6 : d8.length = 8) (h7 : ∀ c ∈ d8, isDigitChar c = true) :
    parse_details ⟨'O' :: ':' :: (tk ++ (d6 ++ ((tc :: d8) ++ rest)))⟩
      = (⟨tk⟩, expiryOf d6, (digitsVal d8 : ℚ) / 1000,
         if tc = 'C' then "Call" else "Put") := by
  dsimp only [parse_details]
  rw [parseCore_full tk d6 d8 rest tc h1 h2 h3 h4 h5 h6 h7]

lemma expiryOf_pads (year month day : Nat) (hy1 : 2000 ≤ year) (hy2 : year ≤ 2099) :
    expiryOf (pad2 (year % 100) ++ pad2 month ++ pad2 day) = isoDate year month day := by
  have h1 : year / 1000 % 10 = 2 := by omega
  have h2 : year / 100 % 10 = 0 := by omega
  have h3 : year % 100 / 10 % 10 = year / 10 % 10 := by omega
  have h4 : year % 100 % 10 = year % 10 := by omega
  simp [expiryOf, isoDate, pad2, pad4, h1, h2, h3, h4, digitChar]

/-- C2: decoding an encoded OCC symbol reproduces the input.  The encoder is
the Contract Inspector symbol builder (`home.py` lines 110-113); the decoder
is `parse_details`.  For every ticker of 1-5 uppercase letters, calendar date
in the representable 20YY range, strike that is a multiple of $0.01 and at
most $99999.999 (carried in thousandths of a dollar), and side,
`parse_details` returns the ticker, the ISO rendering of the date, the exact
strike value, and the side name. -/
theorem c2_symbol_roundtrip (u : String) (year month day strikeT : Nat) (side : Side)
    (hu1 : u.data ≠ []) (hu2 : ∀ c ∈ u.data, isUpperChar c = true)
    (hu3 : u.data.length ≤ 5)
    (hy1 : 2000 ≤ year) (hy2 : year ≤ 2099)
    (hm1 : 1 ≤ month) (hm2 : month ≤ 12) (hd1 : 1 ≤ day) (hd2 : day ≤ 31)
    (hs1 : strikeT ≤ 99999999) (hs2 : strikeT % 10 = 0) :
    parse_details (encodeSymbol u year month day side strikeT)
      = (u, isoDate year month day, (strikeT : ℚ) / 1000, sideName side) := by
  have hD6 : ∀ c ∈ pad2 (year % 100) ++ pad2 month ++ pad2 day, isDigitChar c = true := by
    intro c hc
    simp only [pad2, List.mem_append, List.mem_cons, List.not_mem_nil, or_false] at hc
    rcases hc with ((h | h) | (h | h)) | (h | h) <;> subst h <;> exact isDigitChar_digitChar _
  have hD8 : ∀ c ∈ pad8 strikeT, isDigitChar c = true := by
    intro c hc
    simp only [pad8, List.mem_cons, List.not_mem_nil, or_false] at hc
    rcases hc with h | h | h | h | h | h | h | h <;> subst h <;> exact isDigitChar_digitChar _
  have hlen6 : (pad2 (year % 100) ++ pad2 month ++ pad2 day).length = 6 := by simp [pad2]
  have hlen8 : (pad8 strikeT).length = 8 := by simp [pad8]
  have henc : encodeSymbol u year month day side strikeT
      = ⟨'O' :: ':' :: (u.data ++ ((pad2 (year % 100) ++ pad2 month ++ pad2 day) ++
          ((sideChar side :: pad8 strikeT) ++ [])))⟩ := by
    simp [encodeSymbol]
  rw [henc,
    parse_details_full u.data _ _ [] (sideChar side) hu1 hu2 hlen6 hD6
      (by cases side <;> simp [sideChar]) hlen8 hD8,
    expiryOf_pads year month day hy1 hy2,
    digitsVal_pad8 strikeT (by omega)]
  cases side <;> simp [sideChar, sideName]

/-- C2 witness: the concrete contract NVDA 2025-12-05 Call $185.00 round-trips. -/
theorem c2_symbol_roundtrip_witness :
    ("NVDA" : String).data ≠ [] ∧ (∀ c ∈ ("NVDA" : String).data, isUpperChar c = true) ∧
    parse_details (encodeSymbol "NVDA" 2025 12 5 Side.call 185000)
      = ("NVDA", isoDate 2025 12 5, (185000 : ℚ) / 1000, sideName Side.call) :=
  ⟨by decide, by decide,
    c2_symbol_roundtrip "NVDA" 2025 12 5 185000 Side.call (by decide) (by decide)
      (by decide) (by norm_num) (by norm_num) (by norm_num) (by norm_num) (by norm_num)
      (by norm_num) (by norm_num) (by norm_num)⟩

/-- C7: on any input on which the symbol regex does not match, `parse_details`
does not fail: it returns the original string unchanged together with the
placeholder expiry `"-"`, strike `0.0`, and side `"-"`. -/
theorem c7_parse_fallback (s : String) (h : parseCore s.data = none) :
    parse_details s = (s, "-", 0, "-") := by
  dsimp only [parse_details]
  rw [h]

/-- C7 witness: the index symbol `"I:SPX"` does not match the grammar and is
returned as an opaque display string with placeholder fields. -/
theorem c7_parse_fallback_witness :
    parseCore ("I:SPX" : String).data = none ∧
    parse_details "I:SPX" = ("I:SPX", "-", 0, "-") :=
  ⟨by decide, c7_parse_fallback "I:SPX" (by decide)⟩

/-- C9: `re.match` anchors only at the start of the string, so the decoder
matches a prefix: appending any suffix to a well-formed symbol leaves the
decoded `(ticker, expiry, strike, side)` tuple unchanged, and decoding is
therefore not injective on raw strings. -/
theorem c9_prefix_decode (tk d6 d8 : List Char) (tc : Char) (t : String)
    (h1 : tk ≠ []) (h2 : ∀ c ∈ tk, isUpperChar c = true)
    (h3 : d6.length = 6) (h4 : ∀ c ∈ d6, isDigitChar c = true)
    (h5 : tc = 'C' ∨ tc = 'P')
    (h6 : d8.length = 8) (h7 : ∀ c ∈ d8, isDigitChar c = true) :
    parse_details ⟨'O' :: ':' :: (tk ++ (d6 ++ ((tc :: d8) ++ t.data)))⟩
      = parse_details ⟨'O' :: ':' :: (tk ++ (d6 ++ ((tc :: d8) ++ [])))⟩ := by
  rw [parse_details_full tk d6 d8 t.data tc h1 h2 h3 h4 h5 h6 h7,
    parse_details_full tk d6 d8 [] tc h1 h2 h3 h4 h5 h6 h7]

/-- C9 witness: appending `"XYZ"` to the well-formed symbol
`O:NVDA251205C00185000` does not change the decoded tuple. -/
theorem c9_prefix_decode_witness :
    (['N', 'V', 'D', 'A'] : List Char) ≠ [] ∧
    parse_details ⟨'O' :: ':' :: (['N', 'V', 'D', 'A'] ++
        ((['2', '5', '1', '2', '0', '5'] : List Char) ++
          (('C' :: ['0', '0', '1', '8', '5', '0', '0', '0']) ++ ("XYZ" : String).data)))⟩
      = parse_details ⟨'O' :: ':' :: (['N', 'V', 'D', 'A'] ++
          ((['2', '5', '1', '2', '0', '5'] : List Char) ++
            (('C' :: ['0', '0', '1', '8', '5', '0', '0', '0']) ++ [])))⟩ :=
  ⟨by decide,
    c9_prefix_decode ['N', 'V', 'D', 'A'] ['2', '5', '1', '2', '0', '5']
      ['0', '0', '1', '8', '5', '0', '0', '0'] 'C' "XYZ" (by decide) (by decide)
      (by decide) (by decide) (by decide) (by decide) (by decide)⟩

/-- C1 counterexample: the code does not implement the claimed
Whale/Sweep/Tiny/Block precedence.  A deep-scan print of size 2500 (claimed
`Whale`) and one of size 3 (claimed `Tiny`) both get the one fixed tag
`"🧱 BLOCK"` — the claimed classification would have to give them distinct
tags — and on the live path a size-2500 print with no conditions is tagged
`"⚡ LIVE"`, again not a whale tag. -/
theorem c1_classifier_counterexample :
    (rowOfTrade 0 "NVDA" "O:NVDA251205C00185000" ⟨100, 2500, 7⟩).map Row.tag
        = some "🧱 BLOCK" ∧
    (rowOfTrade 0 "NVDA" "O:NVDA251205C00185000" ⟨100, 3, 7⟩).map Row.tag
        = some "🧱 BLOCK" ∧
    (handle_msg_one ["NVDA"] 0 7 ⟨"T", "O:NVDA251205C00185000", 100, 2500, []⟩).map Row.tag
        = some "⚡ LIVE" := by
  refine ⟨?_, ?_, ?_⟩
  · simp only [rowOfTrade]
    rw [if_pos (by positivity)]
    rfl
  · simp only [rowOfTrade]
    rw [if_pos (by positivity)]
    rfl
  · simp only [handle_msg_one, if_true]
    rw [show findTicker ["NVDA"] "O:NVDA251205C00185000" = some "NVDA" by decide]
    simp only
    rw [if_pos (by positivity)]
    rfl

/-- C1 amended: the tags the code actually assigns.  Every record the deep
scan keeps is tagged `"🧱 BLOCK"` regardless of size; every record the live
listener keeps is tagged `"🧹 SWEEP"` exactly when condition code 14 is
present and `"⚡ LIVE"` otherwise; no Whale or Tiny tag exists. -/
theorem c1_tags_assigned (th : ℚ) (stock sym : String) (tr : TradeRec)
    (tickers : List String) (th2 : ℚ) (now : Nat) (m : WsMessage) (found : String)
    (hdeep : th ≤ tr.price * (tr.size : ℚ) * 100)
    (he : m.event_type = "T") (hf : findTicker tickers m.symbol = some found)
    (hlive : th2 ≤ m.price * (m.size : ℚ) * 100) :
    (rowOfTrade th stock sym tr).map Row.tag = some "🧱 BLOCK" ∧
    (handle_msg_one tickers th2 now m).map Row.tag
      = some (if 14 ∈ m.conditions then "🧹 SWEEP" else "⚡ LIVE") := by
  constructor
  · simp only [rowOfTrade]
    rw [if_pos hdeep]
    rfl
  · simp only [handle_msg_one]
    rw [if_pos he, hf]
    simp only
    rw [if_pos hlive]
    rfl

/-- C1 amended witness: at a concrete deep-scan print and a concrete live
message carrying condition 14, the records are tagged BLOCK and SWEEP. -/
theorem c1_tags_assigned_witness :
    (⟨"T", "O:NVDA251205C00185000", 100, 50, [14]⟩ : WsMessage).event_type = "T" ∧
    findTicker ["NVDA"] "O:NVDA251205C00185000" = some "NVDA" ∧
    ((rowOfTrade 0 "NVDA" "O:NVDA251205C00185000" ⟨100, 50, 7⟩).map Row.tag
        = some "🧱 BLOCK" ∧
      (handle_msg_one ["NVDA"] 0 7
          ⟨"T", "O:NVDA251205C00185000", 100, 50, [14]⟩).map Row.tag
        = some (if 14 ∈ ([14] : List Nat) then "🧹 SWEEP" else "⚡ LIVE")) :=
  ⟨rfl, by decide,
    c1_tags_assigned 0 "NVDA" "O:NVDA251205C00185000" ⟨100, 50, 7⟩ ["NVDA"] 0 7
      ⟨"T", "O:NVDA251205C00185000", 100, 50, [14]⟩ "NVDA" (by positivity) rfl
      (by decide) (by positivity)⟩

/-- C3: a trade print that reaches the per-print check produces a record if
and only if its notional value `price * size * 100` is at least the
threshold — on the deep-scan path unconditionally, on the live path for any
`"T"` message whose symbol matched a watchlist ticker. -/
theorem c3_threshold_iff (th : ℚ) (stock sym : String) (tr : TradeRec)
    (tickers : List String) (now : Nat) (m : WsMessage) (found : String)
    (he : m.event_type = "T") (hf : findTicker tickers m.symbol = some found) :
    ((rowOfTrade th stock sym tr).isSome ↔ th ≤ tr.price * (tr.size : ℚ) * 100) ∧
    ((handle_msg_one tickers th now m).isSome ↔ th ≤ m.price * (m.size : ℚ) * 100) := by
  constructor
  · unfold rowOfTrade
    by_cases h : th ≤ tr.price * (tr.size : ℚ) * 100 <;> simp [h]
  · unfold handle_msg_one
    rw [if_pos he, hf]
    by_cases h : th ≤ m.price * (m.size : ℚ) * 100 <;> simp [h]

/-- C3 witness: at a concrete $60,000 print against a $20,000 threshold the
equivalence holds on both paths. -/
theorem c3_threshold_iff_witness :
    (⟨"T", "O:NVDA251205C00185000", 10, 600, []⟩ : WsMessage).event_type = "T" ∧
    findTicker ["NVDA"] "O:NVDA251205C00185000" = some "NVDA" ∧
    (((rowOfTrade 20000 "NVDA" "O:NVDA251205C00185000" ⟨10, 600, 7⟩).isSome ↔
        (20000 : ℚ) ≤ 10 * ((600 : Nat) : ℚ) * 100) ∧
      ((handle_msg_one ["NVDA"] 20000 7 ⟨"T", "O:NVDA251205C00185000", 10, 600, []⟩).isSome ↔
        (20000 : ℚ) ≤ 10 * ((600 : Nat) : ℚ) * 100)) :=
  ⟨rfl, by decide,
    c3_threshold_iff 20000 "NVDA" "O:NVDA251205C00185000" ⟨10, 600, 7⟩ ["NVDA"] 7
      ⟨"T", "O:NVDA251205C00185000", 10, 600, []⟩ "NVDA" rfl (by decide)⟩

/-- C4: a chain contract passes the deep scan's activity filter if and only
if its day summary is present, its daily volume is non-null and positive,
and `volume * close * 100` is at least the threshold; and a contract that
fails the filter contributes no rows (it is excluded, nothing is raised). -/
theorem c4_activity_filter (th : ℚ) (c : ChainContract) (g : Gateway) (stock : String) :
    (activePass th c = true ↔
      ∃ d, c.day = some d ∧ ∃ v, d.volume = some v ∧ 0 < v ∧
        th ≤ (v : ℚ) * d.close * 100) ∧
    (activePass th c = false → contractRows g th stock c = []) := by
  constructor
  · obtain ⟨ct, day⟩ := c
    cases day with
    | none => simp [activePass]
    | some d =>
      obtain ⟨vol, close⟩ := d
      cases vol with
      | none => simp [activePass]
      | some v =>
        by_cases hz : v = 0
        · subst hz
          simp [activePass]
        · simp only [activePass, if_neg hz, Bool.not_eq_true', decide_eq_false_iff_not,
            not_lt, Option.some.injEq]
          constructor
          · intro h
            exact ⟨⟨some v, close⟩, rfl, v, rfl, Nat.pos_of_ne_zero hz, h⟩
          · rintro ⟨d2, hd2, v2, hv2, _, hle⟩
            cases hd2
            cases hv2
            exact hle
  · intro h
    unfold contractRows
    rw [h]
    simp

/-- C10: an admitted live trade is one whose symbol has some watchlist ticker
as a substring — not one whose decoded underlying equals a watchlist ticker —
and the record is labelled with the first such watchlist ticker.  In
particular a trade on a different underlying whose symbol merely contains a
watchlist ticker is accepted and attributed to it. -/
theorem c10_substring_admission (tickers : List String) (th : ℚ) (now : Nat)
    (m : WsMessage)
    (he : m.event_type = "T") (hval : th ≤ m.price * (m.size : ℚ) * 100) :
    ((handle_msg_one tickers th now m).isSome ↔
      ∃ t ∈ tickers, substrOf t.data m.symbol.data = true) ∧
    ∀ r, handle_msg_one tickers th now m = some r →
      tickers.find? (fun t => substrOf t.data m.symbol.data) = some r.stock := by
  constructor
  · unfold handle_msg_one findTicker
    rw [if_pos he]
    cases hf : tickers.find? (fun t => substrOf t.data m.symbol.data) with
    | none =>
      simp only [Option.isSome_none, Bool.false_eq_true, false_iff]
      rintro ⟨t, ht, hsub⟩
      have := List.find?_eq_none.mp hf t ht
      simp [hsub] at this
    | some found =>
      dsimp only
      rw [if_pos hval]
      simp only [Option.isSome_some, true_iff]
      exact ⟨found, List.mem_of_find?_eq_some hf, by simpa using List.find?_some hf⟩
  · intro r hr
    unfold handle_msg_one findTicker at hr
    rw [if_pos he] at hr
    rcases hf : tickers.find? (fun t => substrOf t.data m.symbol.data) with _ | found
    · rw [hf] at hr
      simp at hr
    · rw [hf] at hr
      dsimp only at hr
      rw [if_pos hval] at hr
      cases hr
      exact hf

/-- C10 witness: with watchlist `["AMD"]`, a trade on underlying `GAMD` —
whose symbol contains `"AMD"` as a substring — is admitted and attributed to
`"AMD"`. -/
theorem c10_substring_admission_witness :
    (⟨"T", "O:GAMD260116C00050000", 100, 10, []⟩ : WsMessage).event_type = "T" ∧
    (((handle_msg_one ["AMD"] 0 7 ⟨"T", "O:GAMD260116C00050000", 100, 10, []⟩).isSome ↔
        ∃ t ∈ (["AMD"] : List String),
          substrOf t.data ("O:GAMD260116C00050000" : String).data = true) ∧
      ∀ r, handle_msg_one ["AMD"] 0 7 ⟨"T", "O:GAMD260116C00050000", 100, 10, []⟩ = some r →
        (["AMD"] : List String).find?
            (fun t => substrOf t.data ("O:GAMD260116C00050000" : String).data) = some r.stock) :=
  ⟨rfl,
    c10_substring_admission ["AMD"] 0 7 ⟨"T", "O:GAMD260116C00050000", 100, 10, []⟩
      rfl (by positivity)⟩

lemma length_pushFront_le (r : Row) (buf : List Row) :
    (pushFront r buf).length ≤ bufCap := by
  unfold pushFront
  rw [List.length_take]
  exact Nat.min_le_left _ _

lemma length_pushBack_le (r : Row) (buf : List Row) (h : buf.length ≤ bufCap) :
    (pushBack r buf).length ≤ bufCap := by
  unfold pushBack
  by_cases hl : buf.length < bufCap
  · rw [if_pos hl]
    simp only [List.length_append, List.length_cons, List.length_nil]
    omega
  · rw [if_neg hl]
    simp only [List.length_append, List.length_tail, List.length_cons, List.length_nil]
    unfold bufCap at *
    omega

lemma length_foldl_pushBack (rows b : List Row) (h : b.length ≤ bufCap) :
    (rows.foldl (fun acc r => pushBack r acc) b).length ≤ bufCap := by
  induction rows generalizing b with
  | nil => simpa
  | cons r rs ih => exact ih _ (length_pushBack_le r b h)

lemma take_append_take (n : Nat) (X Y : List Row) :
    (X ++ Y.take n).take n = (X ++ Y).take n := by
  rw [List.take_append_eq_append_take, List.take_append_eq_append_take,
    List.take_take]
  have : min (n - X.length) n = n - X.length := Nat.min_eq_left (Nat.sub_le _ _)
  rw [this]

lemma foldl_pushFront_eq (rs b : List Row) (h : b.length ≤ bufCap) :
    rs.foldl (fun acc r => pushFront r acc) b = (rs.reverse ++ b).take bufCap := by
  induction rs generalizing b with
  | nil =>
    simp only [List.foldl_nil, List.reverse_nil, List.nil_append]
    exact (List.take_of_length_le h).symm
  | cons r rest ih =>
    simp only [List.foldl_cons, List.reverse_cons]
    rw [ih (pushFront r b) (length_pushFront_le r b)]
    unfold pushFront
    rw [take_append_take, List.append_assoc]
    rfl

/-- C5: the live buffer never exceeds its capacity of 2000 under any sequence
of `appendleft` pushes and scan rebuilds, and pushing `capacity + 1` records
into an empty buffer by `appendleft` retains exactly the `capacity` newest
records (newest first): only the single oldest record is evicted. -/
theorem c5_buffer_bounded (buf : List Row) (ops : List BufOp) (rs : List Row)
    (h1 : buf.length ≤ bufCap) (h2 : rs.length = bufCap + 1) :
    (applyOps buf ops).length ≤ bufCap ∧
    rs.foldl (fun acc r => pushFront r acc) [] = (rs.drop 1).reverse := by
  constructor
  · induction ops generalizing buf with
    | nil => simpa [applyOps]
    | cons op ops ih =>
      have hstep : (applyOp buf op).length ≤ bufCap := by
        cases op with
        | live r => exact length_pushFront_le r buf
        | scan rows => exact length_foldl_pushBack rows [] (by simp)
      simpa [applyOps, List.foldl_cons] using ih (applyOp buf op) hstep
  · rw [foldl_pushFront_eq rs [] (by simp)]
    cases rs with
    | nil => simp at h2
    | cons a rest =>
      simp only [List.reverse_cons, List.append_nil, List.drop_succ_cons, List.drop_zero]
      have hlen : rest.reverse.length = bufCap := by
        simp only [List.length_reverse]
        simpa using h2
      calc (rest.reverse ++ [a]).take bufCap
          = (rest.reverse ++ [a]).take rest.reverse.length := by rw [hlen]
        _ = rest.reverse := List.take_left rest.reverse [a]

/-- C5 witness: at a concrete buffer, operation list, and a list of 2001
records, the bound and the eviction equation hold. -/
theorem c5_buffer_bounded_witness :
    ([] : List Row).length ≤ bufCap ∧
    (List.replicate (bufCap + 1)
        (⟨"NVDA", 185, "2025-12-05", "Call", 50, 500000, 7, "🧱 BLOCK"⟩ : Row)).length
      = bufCap + 1 ∧
    ((applyOps [] []).length ≤ bufCap ∧
      (List.replicate (bufCap + 1)
          (⟨"NVDA", 185, "2025-12-05", "Call", 50, 500000, 7, "🧱 BLOCK"⟩ : Row)).foldl
          (fun acc r => pushFront r acc) []
        = ((List.replicate (bufCap + 1)
            (⟨"NVDA", 185, "2025-12-05", "Call", 50, 500000, 7, "🧱 BLOCK"⟩ : Row)).drop 1).reverse) :=
  ⟨by simp, by simp,
    c5_buffer_bounded [] []
      (List.replicate (bufCap + 1) ⟨"NVDA", 185, "2025-12-05", "Call", 50, 500000, 7, "🧱 BLOCK"⟩)
      (by simp) (by simp)⟩

/-- C6 counterexample: the deep scan sorts by `Trade Value` descending, not
by timestamp descending.  With a $100 record at time 2 and a $200 record at
time 1, the sorted-by-value output is not timestamp-descending. -/
theorem c6_sort_counterexample :
    ¬ List.Sorted (fun a b : Row => b.time ≤ a.time)
        (scanSort [⟨"NVDA", 185, "2025-12-05", "Call", 1, 100, 2, "🧱 BLOCK"⟩,
                   ⟨"TSLA", 400, "2025-12-05", "Put", 2, 200, 1, "🧱 BLOCK"⟩]) := by
  intro h
  have hs : scanSort [⟨"NVDA", 185, "2025-12-05", "Call", 1, 100, 2, "🧱 BLOCK"⟩,
        ⟨"TSLA", 400, "2025-12-05", "Put", 2, 200, 1, "🧱 BLOCK"⟩]
      = [⟨"TSLA", 400, "2025-12-05", "Put", 2, 200, 1, "🧱 BLOCK"⟩,
         ⟨"NVDA", 185, "2025-12-05", "Call", 1, 100, 2, "🧱 BLOCK"⟩] := by
    unfold scanSort
    simp only [List.insertionSort, List.orderedInsert]
    rw [if_neg (by norm_num [valDesc])]
  rw [hs] at h
  have := List.rel_of_sorted_cons h _ (List.mem_cons_self ..)
  norm_num at this

/-- C6 amended: when the deep scan finishes classifying, the records placed
into the buffer are sorted by `Trade Value` (notional) descending — the sort
key is the value, not the timestamp — and the sort is a permutation of the
collected records. -/
theorem c6_sorted_by_value (g : Gateway) (th : ℚ) (tickers : List String) :
    List.Sorted valDesc (run_deep_scan g th tickers) ∧
    List.Perm (run_deep_scan g th tickers) (tickers.flatMap (tickerRows g th)) := by
  constructor
  · exact List.sorted_insertionSort valDesc _
  · exact List.perm_insertionSort valDesc _

/-- C8: per-unit failure isolation of the deep scan.  Whatever other tickers
or contracts fail, every record coming from a non-failing unit — a ticker
whose chain call succeeds, a contract passing the activity filter whose
trades call succeeds, a print passing the threshold — is in the scan
result; the scan always completes (it is a total function). -/
theorem c8_per_unit_failure (g : Gateway) (th : ℚ) (tickers : List String)
    (t : String) (cs : List ChainContract) (c : ChainContract)
    (trs : List TradeRec) (tr : TradeRec) (r : Row)
    (ht : t ∈ tickers) (hchain : g.chain t = .ok cs) (hc : c ∈ cs)
    (ha : activePass th c = true)
    (htr : g.trades c.ticker = .ok trs) (htrm : tr ∈ trs)
    (hr : rowOfTrade th t c.ticker tr = some r) :
    r ∈ run_deep_scan g th tickers := by
  have hmem : r ∈ tickers.flatMap (tickerRows g th) := by
    rw [List.mem_flatMap]
    refine ⟨t, ht, ?_⟩
    unfold tickerRows
    rw [hchain]
    rw [List.mem_flatMap]
    refine ⟨c, hc, ?_⟩
    unfold contractRows
    rw [if_pos ha, htr]
    rw [List.mem_filterMap]
    exact ⟨tr, htrm, hr⟩
  exact (List.perm_insertionSort valDesc _).mem_iff.mpr hmem

/-- C8 witness: with watchlist `["BAD", "NVDA"]` against the demo gateway —
where the `"BAD"` chain call raises — the record of the one good NVDA print
is still in the scan result. -/
theorem c8_per_unit_failure_witness :
    "NVDA" ∈ (["BAD", "NVDA"] : List String) ∧
    demoGateway.chain "NVDA" = .ok [⟨"O:NVDA251205C00185000", some ⟨some 100, 10⟩⟩] ∧
    activePass 20000 ⟨"O:NVDA251205C00185000", some ⟨some 100, 10⟩⟩ = true ∧
    demoGateway.trades "O:NVDA251205C00185000" = .ok [⟨10, 600, 7⟩] ∧
    ∀ r, rowOfTrade 20000 "NVDA" "O:NVDA251205C00185000" ⟨10, 600, 7⟩ = some r →
      r ∈ run_deep_scan demoGateway 20000 ["BAD", "NVDA"] :=
  ⟨by simp, by simp [demoGateway], by norm_num [activePass], by simp [demoGateway],
    fun r hr =>
      c8_per_unit_failure demoGateway 20000 ["BAD", "NVDA"] "NVDA"
        [⟨"O:NVDA251205C00185000", some ⟨some 100, 10⟩⟩]
        ⟨"O:NVDA251205C00185000", some ⟨some 100, 10⟩⟩ [⟨10, 600, 7⟩] ⟨10, 600, 7⟩ r
        (by simp) (by simp [demoGateway]) (by simp) (by norm_num [activePass])
        (by simp [demoGateway]) (by simp) hr⟩
